import Mathlib

/-!
Verification of the sports-data-admin ingestion core against its sources.

The repository ships the relational migrations (`sql/005` … `sql/009`), the
database integration guide, the Beta Phase 2/3/4 design documents and the admin
UI.  The Status Synchronizer, the Reveal Classifier, the Rate-Limited Collector
and the Recap Availability Gate live in the scraper service, which is not among
the sources; those components are modelled here from the specification text, as
marked on each definition.  The SQL migrations are embedded directly.
-/

namespace SportsDataAdmin

/-- Modelled from the spec: the Status Synchronizer implementation is missing
from the sources (only the Beta Phase 2 document and spec section 4.4 describe
it).  Lifecycle states of a game: `scheduled` (initial), `live`,
`final` (terminal), `postponed`, `canceled` (terminal). -/
inductive GameStatus
  | scheduled
  | live
  | final
  | postponed
  | canceled
deriving DecidableEq, Repr

/-- A play-by-play event: period/quarter number, sequence index within the
period, remaining clock (provider-native string), description, and the
provider play-type enum passed through (spec section 3, `PBPEvent`). -/
structure PBPEvent where
  period : Nat
  sequence : Nat
  clock : String
  description : String
  play_type : String
deriving DecidableEq, Repr

/-- The per-game state owned by the Status Synchronizer: the lifecycle status,
the nullable `end_time` (set at most once), and the append-only list of
ingested play-by-play events (spec section 3, `Game` and `PBPEvent`). -/
structure GameState where
  status : GameStatus
  end_time : Option Nat
  events : List PBPEvent
deriving DecidableEq, Repr

/-- Modelled from the spec: the signals the Status Synchronizer consumes — a
play-by-play event arrival, a provider-reported final/end signal (carrying the
current time used for `end_time`), and provider postponement/cancellation
signals (spec section 4.4 lists the states `postponed` and `canceled`; it
specifies no transition out of a terminal state). -/
inductive StatusSignal
  | pbpEvent (e : PBPEvent)
  | finalSignal (now : Nat)
  | postponeSignal
  | cancelSignal
deriving DecidableEq, Repr

/-- Modelled from the spec: the Status Synchronizer transition function is
missing from the sources; transitions follow spec section 4.4 and the Beta
Phase 2 document (part_000, Status Synchronization):
* a PBP event while `scheduled` moves the game to `live` and is always
  appended, even to an already-`final` game;
* a final signal while `scheduled` or `live` sets `final` and sets `end_time`
  if unset; repeated final signals are no-ops;
* no signal moves a game out of `final`, `postponed` or `canceled`
  (illegal transitions are rejected with the state preserved). -/
def applySignal (g : GameState) (s : StatusSignal) : GameState :=
  match s with
  | .pbpEvent e =>
      { g with
        events := g.events ++ [e],
        status := if g.status = .scheduled then .live else g.status }
  | .finalSignal now =>
      match g.status with
      | .scheduled =>
          { g with status := .final,
                   end_time := if g.end_time.isSome then g.end_time else some now }
      | .live =>
          { g with status := .final,
                   end_time := if g.end_time.isSome then g.end_time else some now }
      | _ => g
  | .postponeSignal =>
      if g.status = .scheduled then { g with status := .postponed } else g
  | .cancelSignal =>
      if g.status = .scheduled ∨ g.status = .live then
        { g with status := .canceled }
      else g

/-- Folding a whole sequence of status signals over a game state. -/
def applySignals (g : GameState) (sigs : List StatusSignal) : GameState :=
  sigs.foldl applySignal g

/-- Once a game is `final`, one signal changes neither the status nor
`end_time`. -/
theorem applySignal_of_final (g : GameState) (s : StatusSignal)
    (h : g.status = .final) :
    (applySignal g s).status = .final ∧ (applySignal g s).end_time = g.end_time := by
  cases s with
  | pbpEvent e => simp [applySignal, h]
  | finalSignal now => simp [applySignal, h]
  | postponeSignal => simp [applySignal, h]
  | cancelSignal => simp [applySignal, h]

/-- C1: once a game's status reaches `final`, no sequence of subsequent
signals (final signals, PBP events, or any other) changes the status or
unsets `end_time`; applying a PBP event to an already-`final` game still
appends the event but leaves the status unchanged. -/
theorem final_is_terminal (g : GameState) (h : g.status = .final)
    (sigs : List StatusSignal) :
    (applySignals g sigs).status = .final ∧
      (applySignals g sigs).end_time = g.end_time ∧
      ∀ e : PBPEvent,
        (applySignal g (.pbpEvent e)).events = g.events ++ [e] ∧
          (applySignal g (.pbpEvent e)).status = g.status := by
  refine ⟨?_, ?_, ?_⟩
  · induction sigs generalizing g with
    | nil => simpa [applySignals] using h
    | cons s rest ih =>
        have hs := applySignal_of_final g s h
        simpa [applySignals, List.foldl_cons] using ih (applySignal g s) hs.1
  · induction sigs generalizing g with
    | nil => simp [applySignals]
    | cons s rest ih =>
        have hs := applySignal_of_final g s h
        have hrest := ih (applySignal g s) hs.1
        simpa [applySignals, List.foldl_cons] using hrest.trans hs.2
  · intro e
    constructor
    · simp [applySignal]
    · simp [applySignal, h]

/-- Witness for `final_is_terminal` at a concrete already-final game and a
concrete signal sequence. -/
theorem final_is_terminal_witness :
    (applySignals ⟨.final, some 5, []⟩
        [.pbpEvent ⟨1, 1, "12:00", "Tipoff", "tip"⟩, .finalSignal 9,
          .cancelSignal]).status = .final ∧
      (applySignals ⟨.final, some 5, []⟩
          [.pbpEvent ⟨1, 1, "12:00", "Tipoff", "tip"⟩, .finalSignal 9,
            .cancelSignal]).end_time = some 5 ∧
      ∀ e : PBPEvent,
        (applySignal (⟨.final, some 5, []⟩ : GameState) (.pbpEvent e)).events =
            ([] : List PBPEvent) ++ [e] ∧
          (applySignal (⟨.final, some 5, []⟩ : GameState) (.pbpEvent e)).status =
            GameStatus.final :=
  final_is_terminal ⟨.final, some 5, []⟩ rfl
    [.pbpEvent ⟨1, 1, "12:00", "Tipoff", "tip"⟩, .finalSignal 9, .cancelSignal]

/-- C6: `end_time` is assigned at most once, no matter how many final signals
arrive: the first final signal received while the status is `scheduled` or
`live` sets the status to `final` and sets `end_time` if unset, and applying
any further final signal to the result is a no-op (the state equals the state
before that signal). -/
theorem end_time_set_at_most_once (g : GameState) (t : Nat)
    (h : g.status = .scheduled ∨ g.status = .live) :
    (applySignal g (.finalSignal t)).status = .final ∧
      (applySignal g (.finalSignal t)).end_time =
        (if g.end_time.isSome then g.end_time else some t) ∧
      ∀ t2 : Nat,
        applySignal (applySignal g (.finalSignal t)) (.finalSignal t2) =
          applySignal g (.finalSignal t) := by
  rcases h with h | h
  · refine ⟨by simp [applySignal, h], by simp [applySignal, h], ?_⟩
    intro t2
    simp [applySignal, h]
  · refine ⟨by simp [applySignal, h], by simp [applySignal, h], ?_⟩
    intro t2
    simp [applySignal, h]

/-- Witness for `end_time_set_at_most_once` at a concrete live game with
`end_time` unset. -/
theorem end_time_set_at_most_once_witness :
    (applySignal ⟨.live, none, []⟩ (.finalSignal 7)).status = .final ∧
      (applySignal ⟨.live, none, []⟩ (.finalSignal 7)).end_time =
        (if (none : Option Nat).isSome then (none : Option Nat) else some 7) ∧
      ∀ t2 : Nat,
        applySignal (applySignal ⟨.live, none, []⟩ (.finalSignal 7))
            (.finalSignal t2) =
          applySignal ⟨.live, none, []⟩ (.finalSignal 7) :=
  end_time_set_at_most_once ⟨.live, none, []⟩ 7 (Or.inr rfl)

/-- Reveal level of a content unit: `pre` (safe to show before the consumer
learns the outcome) or `post` (assumes/reveals the outcome). -/
inductive RevealLevel
  | pre
  | post
deriving DecidableEq, Repr

/-- Modelled from the spec: the Reveal Classifier implementation is missing
from the sources; the spec (sections 4.5 and 9) states that the exact pattern
table is not fully enumerated, so the two pattern families are kept as
parameters: `isOutcomePattern` covers outcome language, final-score patterns,
recap phrasing and celebratory-result emoji; `isSafePattern` covers the
explicit safe set (lineup announcements, injury updates, pregame-readiness
phrases). -/
structure PatternConfig where
  isOutcomePattern : String → Bool
  isSafePattern : String → Bool

/-- A social post as seen by the Reveal Classifier: its text content and the
`posted_at` timestamp (spec section 3, `SocialPost`). -/
structure SocialPost where
  content : String
  posted_at : Nat
deriving DecidableEq, Repr

/-- Whether a post's `posted_at` falls after the game's recorded final time
(`none` when the Status Synchronizer has recorded no final time). -/
def postedAfterFinal (gameFinalTime : Option Nat) (p : SocialPost) : Bool :=
  match gameFinalTime with
  | some ft => decide (ft < p.posted_at)
  | none => false

/-- The reveal_reason codes recorded by the classifier (spec section 4.5). -/
def revealReasonCodes : List String :=
  ["score_pattern", "post_game_timing", "safe_pattern_matched", "default_risk"]

/-- Modelled from the spec: the Reveal Classifier decision procedure is missing
from the sources; from spec section 4.5 and the Beta Phase 3 document
(part_002, Spoiler Philosophy): outcome patterns override any safe-pattern
match; a post dated after the recorded final time is forced to `post`
independent of content; otherwise a safe-pattern match yields `pre`; the
default is reveal-risk `post`.  Every decision records a reveal_reason code. -/
def classifyRevealLevel (cfg : PatternConfig) (gameFinalTime : Option Nat)
    (p : SocialPost) : RevealLevel × String :=
  if cfg.isOutcomePattern p.content then
    (.post, "score_pattern")
  else if postedAfterFinal gameFinalTime p then
    (.post, "post_game_timing")
  else if cfg.isSafePattern p.content then
    (.pre, "safe_pattern_matched")
  else
    (.post, "default_risk")

/-- C2: every social post whose `posted_at` is after the game's recorded final
time is classified `post`, for every content value — including content that
matches every safe pattern (and whatever the outcome patterns say). -/
theorem post_after_final_always_post (cfg : PatternConfig) (ft : Nat)
    (p : SocialPost) (h : ft < p.posted_at) :
    (classifyRevealLevel cfg (some ft) p).1 = .post := by
  by_cases ho : cfg.isOutcomePattern p.content
  · simp [classifyRevealLevel, ho]
  · simp [classifyRevealLevel, ho, postedAfterFinal, h]

/-- Witness for `post_after_final_always_post`: a post dated after the final
time whose content matches every safe pattern (safe matcher constantly true,
outcome matcher constantly false). -/
theorem post_after_final_always_post_witness :
    (1 : Nat) < 2 ∧
      (classifyRevealLevel ⟨fun _ => false, fun _ => true⟩ (some 1)
          ⟨"Starting lineup is out", 2⟩).1 = .post :=
  ⟨by decide,
    post_after_final_always_post ⟨fun _ => false, fun _ => true⟩ 1
      ⟨"Starting lineup is out", 2⟩ (by decide)⟩

/-- C3: every social post whose content matches an outcome pattern is
classified `post` with reveal_reason `score_pattern`, even when the content
also matches safe patterns — outcome detection has priority. -/
theorem outcome_pattern_always_post (cfg : PatternConfig)
    (gameFinalTime : Option Nat) (p : SocialPost)
    (h : cfg.isOutcomePattern p.content = true) :
    classifyRevealLevel cfg gameFinalTime p = (.post, "score_pattern") := by
  simp [classifyRevealLevel, h]

/-- Witness for `outcome_pattern_always_post`: a final-score post whose content
also matches every safe pattern (safe matcher constantly true). -/
theorem outcome_pattern_always_post_witness :
    (PatternConfig.isOutcomePattern ⟨fun _ => true, fun _ => true⟩
          "Final: 102-98" : Bool) = true ∧
      classifyRevealLevel ⟨fun _ => true, fun _ => true⟩ none
          ⟨"Final: 102-98", 0⟩ = (.post, "score_pattern") :=
  ⟨rfl,
    outcome_pattern_always_post ⟨fun _ => true, fun _ => true⟩ none
      ⟨"Final: 102-98", 0⟩ rfl⟩

/-- C4: the classifier's default is reveal-risk — a post is classified `pre`
exactly when it matches a safe pattern, matches no overriding outcome pattern
and is not post-final by timing; and every classification decision records one
of the reveal_reason codes. -/
theorem default_risk_classification (cfg : PatternConfig)
    (gameFinalTime : Option Nat) (p : SocialPost) :
    ((classifyRevealLevel cfg gameFinalTime p).1 = .pre ↔
        (cfg.isSafePattern p.content = true ∧
          cfg.isOutcomePattern p.content = false ∧
          postedAfterFinal gameFinalTime p = false)) ∧
      (classifyRevealLevel cfg gameFinalTime p).2 ∈ revealReasonCodes := by
  by_cases ho : cfg.isOutcomePattern p.content
  · simp [classifyRevealLevel, ho, revealReasonCodes]
  · by_cases ht : postedAfterFinal gameFinalTime p
    · simp [classifyRevealLevel, ho, ht, revealReasonCodes]
    · by_cases hs : cfg.isSafePattern p.content
      · simp [classifyRevealLevel, ho, ht, hs, revealReasonCodes]
      · simp [classifyRevealLevel, ho, ht, hs, revealReasonCodes]

/-- The Recap Availability Gate's answer: availability plus the reason code
when unavailable. -/
structure RecapAvailability where
  available : Bool
  reason : Option String
deriving DecidableEq, Repr

/-- Modelled from the spec: the Recap Availability Gate implementation is
missing from the sources (spec section 4.6 and the Beta Phase 4 document in
part_000 describe it).  A derived rule: recap generation is available exactly
when the game has at least one ingested PBP event; otherwise it is unavailable
with reason `pbp_missing`.  The gate consumes the game state and hands it back
untouched — it mutates nothing. -/
def recapAvailabilityGate (g : GameState) : RecapAvailability × GameState :=
  if g.events.isEmpty then (⟨false, some "pbp_missing"⟩, g)
  else (⟨true, none⟩, g)

/-- C8: the Recap Availability Gate yields `available = true` exactly when the
game has at least one ingested PBP event; with zero events it yields
`available = false` with reason `pbp_missing`; and evaluating the gate leaves
the game state unchanged. -/
theorem recap_gate_requires_pbp (g : GameState) :
    ((recapAvailabilityGate g).1.available = true ↔ g.events ≠ []) ∧
      (g.events = [] →
        (recapAvailabilityGate g).1 = ⟨false, some "pbp_missing"⟩) ∧
      (recapAvailabilityGate g).2 = g := by
  by_cases h : g.events.isEmpty
  · have h0 : g.events = [] := List.isEmpty_iff.mp h
    simp [recapAvailabilityGate, h, h0]
  · have h0 : g.events ≠ [] := by
      intro hc
      simp [hc] at h
    simp [recapAvailabilityGate, h, h0]

/-- Translated from src/unnamed/part_000 (Database Integration Guide, Key
Columns): the stored `sports_games.status` column is one of `scheduled`,
`completed`, `postponed`, `canceled`; the example queries in the same guide
filter finished games with `status = 'completed'`. -/
def sportsGamesStatusValues : List String :=
  ["scheduled", "completed", "postponed", "canceled"]

/-- From the spec's words (section 3, `Game`), for comparison with the stored
enumeration: status is claimed to range over
`scheduled|live|final|postponed|canceled`. -/
def specClaimedGameStatusValues : List String :=
  ["scheduled", "live", "final", "postponed", "canceled"]

/-- C7 counterexample: the stored status enumeration of `sports_games` in the
database guide is not the spec's five-value enumeration — `live` and `final`
are absent from it, while `completed` is present but absent from the spec's
list. -/
theorem stored_status_enum_counterexample :
    "live" ∈ specClaimedGameStatusValues ∧
      "live" ∉ sportsGamesStatusValues ∧
      "final" ∈ specClaimedGameStatusValues ∧
      "final" ∉ sportsGamesStatusValues ∧
      "completed" ∈ sportsGamesStatusValues ∧
      "completed" ∉ specClaimedGameStatusValues := by
  decide

/-- C7 amended: every stored game's status is one of exactly the four enum
values `scheduled`, `completed`, `postponed`, `canceled` (pairwise distinct);
`live` and `final` are not among the documented stored statuses of
`sports_games`. -/
theorem stored_status_enum (s : String) :
    (s ∈ sportsGamesStatusValues ↔
        (s = "scheduled" ∨ s = "completed" ∨ s = "postponed" ∨ s = "canceled")) ∧
      sportsGamesStatusValues.Nodup ∧
      sportsGamesStatusValues.length = 4 ∧
      "live" ∉ sportsGamesStatusValues ∧
      "final" ∉ sportsGamesStatusValues := by
  refine ⟨?_, by decide, by decide, by decide, by decide⟩
  simp [sportsGamesStatusValues]

/-- The natural key of a `social_account_polls` row (translated from sql/007:
`UNIQUE (platform, handle, window_start, window_end)`). -/
structure PollKey where
  platform : String
  handle : String
  window_start : Nat
  window_end : Nat
deriving DecidableEq, Repr

/-- A row of `social_account_polls` (translated from sql/007): platform,
handle, window bounds, status, `posts_found`, the rate-limit backoff deadline,
the error detail and the creation timestamp; the `id SERIAL` surrogate key is
omitted, the natural key is `(platform, handle, window_start, window_end)`. -/
structure PollWindowRow where
  platform : String
  handle : String
  window_start : Nat
  window_end : Nat
  status : String
  posts_found : Nat
  rate_limited_until : Option Nat
  error_detail : Option String
  created_at : Nat
deriving DecidableEq, Repr

/-- The natural key of a poll-window row. -/
def PollWindowRow.key (e : PollWindowRow) : PollKey :=
  ⟨e.platform, e.handle, e.window_start, e.window_end⟩

/-- The collector's window cache together with a count of the external adapter
calls it has performed (the count instruments the model so that the
at-most-one-fetch-per-window guarantee can be stated). -/
structure CollectorState where
  cache : List PollWindowRow
  adapter_calls : Nat
deriving DecidableEq, Repr

/-- At most one cache entry per key: the `UNIQUE (platform, handle,
window_start, window_end)` constraint of sql/007. -/
def cacheKeysUnique (cache : List PollWindowRow) : Prop :=
  cache.Pairwise (fun a b => a.key ≠ b.key)

/-- Modelled from the spec: the Rate-Limited Collector's per-window poll step
is missing from the sources (spec section 4.3 and the Beta Phase 3 document
describe it); the cache row shape comes from sql/007.  Before fetching, the
collector looks up the PollWindow for the key; if a fresh (non-expired, within
`ttl` of its creation) entry exists it skips the network call and reuses the
cached result; otherwise it calls the adapter (counted by `adapter_calls`) and
upserts the window row — updated in place when a stale row for the key exists
(rows are never deleted), inserted on the first poll attempt for the window. -/
def pollWindowStep (ttl now : Nat) (k : PollKey) (fetchedPosts : Nat)
    (s : CollectorState) : CollectorState :=
  if ∃ e ∈ s.cache, e.key = k ∧ now < e.created_at + ttl then s
  else if ∃ e ∈ s.cache, e.key = k then
    { cache := s.cache.map (fun e =>
        if e.key = k then
          { e with status := "success", posts_found := fetchedPosts }
        else e),
      adapter_calls := s.adapter_calls + 1 }
  else
    { cache := s.cache ++
        [⟨k.platform, k.handle, k.window_start, k.window_end, "success",
          fetchedPosts, none, none, now⟩],
      adapter_calls := s.adapter_calls + 1 }

/-- The key of a freshly inserted poll-window row is the requested key. -/
theorem freshRow_key (k : PollKey) (fetchedPosts now : Nat) :
    PollWindowRow.key
        ⟨k.platform, k.handle, k.window_start, k.window_end, "success",
          fetchedPosts, none, none, now⟩ = k := by
  cases k
  rfl

/-- C5: for a fixed key there is at most one PollWindow cache entry (the poll
step preserves key uniqueness), and two poll requests for the same window
within the cache TTL, starting from a cache with no entry for that key,
perform exactly one external adapter call — the second request finds the
fresh entry and skips the network call. -/
theorem poll_window_at_most_one_fetch (ttl now1 now2 : Nat) (k : PollKey)
    (r1 r2 : Nat) (s : CollectorState)
    (huniq : cacheKeysUnique s.cache)
    (hnone : ∀ e ∈ s.cache, e.key ≠ k)
    (_h1 : now1 ≤ now2) (h2 : now2 < now1 + ttl) :
    cacheKeysUnique
        (pollWindowStep ttl now2 k r2 (pollWindowStep ttl now1 k r1 s)).cache ∧
      (pollWindowStep ttl now2 k r2 (pollWindowStep ttl now1 k r1 s)).adapter_calls
        = s.adapter_calls + 1 := by
  have hnofresh : ¬ ∃ e ∈ s.cache, e.key = k ∧ now1 < e.created_at + ttl := by
    rintro ⟨e, he, hk, -⟩
    exact hnone e he hk
  have hnokey : ¬ ∃ e ∈ s.cache, e.key = k := by
    rintro ⟨e, he, hk⟩
    exact hnone e he hk
  have hstep1 :
      pollWindowStep ttl now1 k r1 s =
        { cache := s.cache ++
            [⟨k.platform, k.handle, k.window_start, k.window_end, "success",
              r1, none, none, now1⟩],
          adapter_calls := s.adapter_calls + 1 } := by
    simp [pollWindowStep, hnofresh, hnokey]
  have hfresh2 :
      ∃ e ∈ (pollWindowStep ttl now1 k r1 s).cache,
        e.key = k ∧ now2 < e.created_at + ttl := by
    refine ⟨⟨k.platform, k.handle, k.window_start, k.window_end, "success",
      r1, none, none, now1⟩, ?_, ?_, ?_⟩
    · rw [hstep1]
      simp
    · exact freshRow_key k r1 now1
    · exact h2
  have hstep2 :
      pollWindowStep ttl now2 k r2 (pollWindowStep ttl now1 k r1 s) =
        pollWindowStep ttl now1 k r1 s := by
    set s1 := pollWindowStep ttl now1 k r1 s with hs1
    show (if ∃ e ∈ s1.cache, e.key = k ∧ now2 < e.created_at + ttl then s1
      else if ∃ e ∈ s1.cache, e.key = k then
        { cache := s1.cache.map (fun e =>
            if e.key = k then
              { e with status := "success", posts_found := r2 }
            else e),
          adapter_calls := s1.adapter_calls + 1 }
      else
        { cache := s1.cache ++
            [⟨k.platform, k.handle, k.window_start, k.window_end, "success",
              r2, none, none, now2⟩],
          adapter_calls := s1.adapter_calls + 1 }) = s1
    rw [if_pos hfresh2]
  rw [hstep2, hstep1]
  constructor
  · have hone : cacheKeysUnique
        [(⟨k.platform, k.handle, k.window_start, k.window_end, "success",
          r1, none, none, now1⟩ : PollWindowRow)] := by
      simp [cacheKeysUnique]
    refine List.pairwise_append.mpr ⟨huniq, hone, ?_⟩
    intro a ha b hb
    have hb1 : b = ⟨k.platform, k.handle, k.window_start, k.window_end,
        "success", r1, none, none, now1⟩ := by
      simpa using hb
    rw [hb1, freshRow_key k r1 now1]
    exact hnone a ha
  · rfl

/-- Witness for `poll_window_at_most_one_fetch`: an empty cache, a concrete
window key and two polls at times 0 and 5 with a TTL of 10. -/
theorem poll_window_at_most_one_fetch_witness :
    cacheKeysUnique
        (pollWindowStep 10 5 ⟨"x", "Canes", 0, 15⟩ 4
          (pollWindowStep 10 0 ⟨"x", "Canes", 0, 15⟩ 3 ⟨[], 0⟩)).cache ∧
      (pollWindowStep 10 5 ⟨"x", "Canes", 0, 15⟩ 4
          (pollWindowStep 10 0 ⟨"x", "Canes", 0, 15⟩ 3 ⟨[], 0⟩)).adapter_calls
        = 0 + 1 :=
  poll_window_at_most_one_fetch 10 0 5 ⟨"x", "Canes", 0, 15⟩ 3 4 ⟨[], 0⟩
    (by simp [cacheKeysUnique]) (by simp) (by decide) (by decide)

/-- A row of `team_social_accounts` (translated from sql/007): team, league,
platform, handle, active flag and timestamps; the `id SERIAL` surrogate key is
omitted; the natural keys are the UNIQUE pairs `(platform, handle)` and
`(team_id, platform)`. -/
structure AccountRow where
  team_id : Nat
  league_id : Nat
  platform : String
  handle : String
  is_active : Bool
  created_at : Nat
  updated_at : Nat
deriving DecidableEq, Repr

/-- The two UNIQUE constraints of `team_social_accounts`, stated between two
rows: they differ on `(platform, handle)` and on `(team_id, platform)`. -/
def accountKeysDiffer (a b : AccountRow) : Prop :=
  (a.platform ≠ b.platform ∨ a.handle ≠ b.handle) ∧
    (a.team_id ≠ b.team_id ∨ a.platform ≠ b.platform)

instance (a b : AccountRow) : Decidable (accountKeysDiffer a b) := by
  unfold accountKeysDiffer
  infer_instance

/-- The registry invariant induced by the UNIQUE constraints of sql/007:
every pair of distinct rows differs on both natural keys. -/
def registryInvariant (reg : List AccountRow) : Prop :=
  reg.Pairwise accountKeysDiffer

instance (reg : List AccountRow) : Decidable (registryInvariant reg) := by
  unfold registryInvariant
  infer_instance

/-- The columns of `sports_teams` read by the seeding statement of sql/008:
the team id, its league, and the nullable `x_handle` (seeded for NHL teams by
sql/006). -/
structure SportsTeamRow where
  id : Nat
  league_id : Nat
  x_handle : Option String
deriving DecidableEq, Repr

/-- The columns of `sports_leagues` read by the seeding statement of
sql/008. -/
structure SportsLeagueRow where
  id : Nat
  code : String
deriving DecidableEq, Repr

/-- One row produced by the SELECT of sql/008 (platform is the constant
`'x'`, `is_active` the constant `TRUE`). -/
structure SeedRow where
  team_id : Nat
  league_id : Nat
  handle : String
deriving DecidableEq, Repr

/-- Translated from sql/008: `SELECT t.id, t.league_id, 'x', t.x_handle, TRUE
FROM sports_teams t JOIN sports_leagues l ON l.id = t.league_id WHERE l.code
IN ('NBA', 'NHL') AND t.x_handle IS NOT NULL`. -/
def seedSelectRows (teams : List SportsTeamRow)
    (leagues : List SportsLeagueRow) : List SeedRow :=
  teams.flatMap (fun t =>
    leagues.filterMap (fun l =>
      match t.x_handle with
      | some hd =>
          if l.id = t.league_id ∧ (l.code = "NBA" ∨ l.code = "NHL") then
            some ⟨t.id, t.league_id, hd⟩
          else none
      | none => none))

/-- Translated from sql/008, for one selected row: `INSERT INTO
team_social_accounts (team_id, league_id, platform, handle, is_active) VALUES
(…, 'x', …, TRUE) ON CONFLICT (team_id, platform) DO UPDATE SET handle =
EXCLUDED.handle, league_id = EXCLUDED.league_id, is_active = TRUE, updated_at
= now()`.  A violation of the other UNIQUE constraint `(platform, handle)` —
which the ON CONFLICT clause does not cover — makes PostgreSQL abort the
statement, modelled as `none`. -/
def upsertSeedAccount (now : Nat) (reg : List AccountRow) (r : SeedRow) :
    Option (List AccountRow) :=
  if ∃ a ∈ reg, a.team_id = r.team_id ∧ a.platform = "x" then
    if ∃ a ∈ reg, a.team_id ≠ r.team_id ∧ a.platform = "x" ∧ a.handle = r.handle then
      none
    else
      some (reg.map (fun a =>
        if a.team_id = r.team_id ∧ a.platform = "x" then
          { a with handle := r.handle, league_id := r.league_id,
                   is_active := true, updated_at := now }
        else a))
  else
    if ∃ a ∈ reg, a.platform = "x" ∧ a.handle = r.handle then none
    else some (reg ++ [⟨r.team_id, r.league_id, "x", r.handle, true, now, now⟩])

/-- Applying the seed upsert to each selected row in turn; any abort aborts
the whole statement. -/
def upsertAll (now : Nat) : List SeedRow → List AccountRow → Option (List AccountRow)
  | [], reg => some reg
  | r :: rest, reg => (upsertSeedAccount now reg r).bind (upsertAll now rest)

/-- Translated from sql/008: the whole seeding statement.  If the SELECT
yields two rows for the same `(team_id, platform)` conflict target, PostgreSQL
rejects the single INSERT ("cannot affect row a second time"), modelled as
`none`. -/
def seedTeamSocialAccounts (now : Nat) (teams : List SportsTeamRow)
    (leagues : List SportsLeagueRow) (reg : List AccountRow) :
    Option (List AccountRow) :=
  if ((seedSelectRows teams leagues).map SeedRow.team_id).Nodup then
    upsertAll now (seedSelectRows teams leagues) reg
  else none

/-- A successful seed upsert of one row preserves the registry invariant. -/
theorem upsertSeedAccount_invariant (now : Nat) (reg reg2 : List AccountRow)
    (r : SeedRow) (hinv : registryInvariant reg)
    (h : upsertSeedAccount now reg r = some reg2) :
    registryInvariant reg2 := by
  unfold upsertSeedAccount at h
  by_cases hconf : ∃ a ∈ reg, a.team_id = r.team_id ∧ a.platform = "x"
  · rw [if_pos hconf] at h
    by_cases hcoll :
        ∃ a ∈ reg, a.team_id ≠ r.team_id ∧ a.platform = "x" ∧ a.handle = r.handle
    · rw [if_pos hcoll] at h
      exact absurd h (by simp)
    · rw [if_neg hcoll] at h
      have hmap := (Option.some.inj h).symm
      rw [hmap]
      unfold registryInvariant
      rw [List.pairwise_map]
      refine hinv.imp_of_mem ?_
      intro a b ha hb hab
      by_cases ha2 : a.team_id = r.team_id ∧ a.platform = "x"
      · by_cases hb2 : b.team_id = r.team_id ∧ b.platform = "x"
        · exfalso
          rcases hab.2 with hid | hpl
          · exact hid (ha2.1.trans hb2.1.symm)
          · exact hpl (ha2.2.trans hb2.2.symm)
        · rw [if_pos ha2, if_neg hb2]
          constructor
          · by_cases hbp : b.platform = "x"
            · right
              show r.handle ≠ b.handle
              intro hbh
              have hbt : b.team_id ≠ r.team_id := fun hbt => hb2 ⟨hbt, hbp⟩
              exact hcoll ⟨b, hb, hbt, hbp, hbh.symm⟩
            · left
              show a.platform ≠ b.platform
              rw [ha2.2]
              exact fun hc => hbp hc.symm
          · exact hab.2
      · by_cases hb2 : b.team_id = r.team_id ∧ b.platform = "x"
        · rw [if_neg ha2, if_pos hb2]
          constructor
          · by_cases hap : a.platform = "x"
            · right
              show a.handle ≠ r.handle
              intro hah
              have hat : a.team_id ≠ r.team_id := fun hat => ha2 ⟨hat, hap⟩
              exact hcoll ⟨a, ha, hat, hap, hah⟩
            · left
              show a.platform ≠ b.platform
              rw [hb2.2]
              exact hap
          · exact hab.2
        · rw [if_neg ha2, if_neg hb2]
          exact hab
  · rw [if_neg hconf] at h
    by_cases hcoll : ∃ a ∈ reg, a.platform = "x" ∧ a.handle = r.handle
    · rw [if_pos hcoll] at h
      exact absurd h (by simp)
    · rw [if_neg hcoll] at h
      have hmap := (Option.some.inj h).symm
      rw [hmap]
      unfold registryInvariant
      refine List.pairwise_append.mpr ⟨hinv, by simp, ?_⟩
      intro a ha b hb
      have hb1 : b = ⟨r.team_id, r.league_id, "x", r.handle, true, now, now⟩ := by
        simpa using hb
      subst hb1
      constructor
      · by_cases hap : a.platform = "x"
        · right
          show a.handle ≠ r.handle
          intro hah
          exact hcoll ⟨a, ha, hap, hah⟩
        · left
          exact hap
      · by_cases hap : a.platform = "x"
        · left
          show a.team_id ≠ r.team_id
          intro hat
          exact hconf ⟨a, ha, hat, hap⟩
        · right
          exact hap

/-- Upserting every selected row preserves the registry invariant. -/
theorem upsertAll_invariant (now : Nat) :
    ∀ (rows : List SeedRow) (reg reg2 : List AccountRow),
      registryInvariant reg → upsertAll now rows reg = some reg2 →
      registryInvariant reg2 := by
  intro rows
  induction rows with
  | nil =>
      intro reg reg2 hinv h
      have hr : reg = reg2 := by simpa [upsertAll] using h
      rwa [← hr]
  | cons r rest ih =>
      intro reg reg2 hinv h
      rw [upsertAll] at h
      cases hu : upsertSeedAccount now reg r with
      | none =>
          rw [hu] at h
          simp at h
      | some reg1 =>
          rw [hu, Option.some_bind] at h
          exact ih reg1 reg2 (upsertSeedAccount_invariant now reg reg1 r hinv hu) h

/-- C9: in the account registry every pair of distinct entries differs on
`(platform, handle)` and on `(team_id, platform)` — each team has at most one
account per platform and each `(platform, handle)` identifies at most one
entry — and this invariant is preserved by the seeding upsert of sql/008. -/
theorem registry_natural_keys_unique (now : Nat) (teams : List SportsTeamRow)
    (leagues : List SportsLeagueRow) (reg reg2 : List AccountRow)
    (hinv : registryInvariant reg)
    (hseed : seedTeamSocialAccounts now teams leagues reg = some reg2) :
    registryInvariant reg2 := by
  unfold seedTeamSocialAccounts at hseed
  by_cases hnd : ((seedSelectRows teams leagues).map SeedRow.team_id).Nodup
  · rw [if_pos hnd] at hseed
    exact upsertAll_invariant now (seedSelectRows teams leagues) reg reg2 hinv hseed
  · rw [if_neg hnd] at hseed
    exact absurd hseed (by simp)

/-- Witness for `registry_natural_keys_unique`: seeding one NHL team with a
handle into a registry that already holds an account of another team. -/
theorem registry_natural_keys_unique_witness :
    registryInvariant [⟨2, 11, "x", "Lakers", false, 0, 0⟩,
      ⟨1, 10, "x", "Canes", true, 3, 3⟩] :=
  registry_natural_keys_unique 3 [⟨1, 10, some "Canes"⟩] [⟨10, "NHL"⟩]
    [⟨2, 11, "x", "Lakers", false, 0, 0⟩]
    [⟨2, 11, "x", "Lakers", false, 0, 0⟩, ⟨1, 10, "x", "Canes", true, 3, 3⟩]
    (by decide) (by decide)

/-- The registry holds an active `'x'` account with the given handle for the
given team. -/
def hasActiveAccount (reg : List AccountRow) (tid : Nat) (hd : String) : Prop :=
  ∃ a ∈ reg, a.team_id = tid ∧ a.platform = "x" ∧ a.handle = hd ∧ a.is_active = true

/-- A successful seed upsert of one row leaves an active `'x'` account for its
team and handle — by insertion with `is_active = TRUE` or by the DO UPDATE
branch forcing `is_active = TRUE`. -/
theorem upsertSeedAccount_puts (now : Nat) (reg reg2 : List AccountRow)
    (r : SeedRow) (h : upsertSeedAccount now reg r = some reg2) :
    hasActiveAccount reg2 r.team_id r.handle := by
  unfold upsertSeedAccount at h
  by_cases hconf : ∃ a ∈ reg, a.team_id = r.team_id ∧ a.platform = "x"
  · rw [if_pos hconf] at h
    by_cases hcoll :
        ∃ a ∈ reg, a.team_id ≠ r.team_id ∧ a.platform = "x" ∧ a.handle = r.handle
    · rw [if_pos hcoll] at h
      exact absurd h (by simp)
    · rw [if_neg hcoll] at h
      have hmap := (Option.some.inj h).symm
      rcases hconf with ⟨a, ha, ha2⟩
      refine ⟨{ a with handle := r.handle, league_id := r.league_id, is_active := true, updated_at := now }, ?_, ha2.1, ha2.2, rfl, rfl⟩
      rw [hmap]
      refine List.mem_map.mpr ⟨a, ha, ?_⟩
      rw [if_pos ha2]
  · rw [if_neg hconf] at h
    by_cases hcoll : ∃ a ∈ reg, a.platform = "x" ∧ a.handle = r.handle
    · rw [if_pos hcoll] at h
      exact absurd h (by simp)
    · rw [if_neg hcoll] at h
      have hmap := (Option.some.inj h).symm
      refine ⟨⟨r.team_id, r.league_id, "x", r.handle, true, now, now⟩, ?_,
        rfl, rfl, rfl, rfl⟩
      rw [hmap]
      simp

/-- A seed upsert for a different team keeps an existing active account. -/
theorem upsertSeedAccount_keeps (now : Nat) (reg reg2 : List AccountRow)
    (r : SeedRow) (tid : Nat) (hd : String) (hne : r.team_id ≠ tid)
    (hacc : hasActiveAccount reg tid hd)
    (h : upsertSeedAccount now reg r = some reg2) :
    hasActiveAccount reg2 tid hd := by
  rcases hacc with ⟨a, ha, hat, hap, hah, hai⟩
  unfold upsertSeedAccount at h
  by_cases hconf : ∃ a ∈ reg, a.team_id = r.team_id ∧ a.platform = "x"
  · rw [if_pos hconf] at h
    by_cases hcoll :
        ∃ a ∈ reg, a.team_id ≠ r.team_id ∧ a.platform = "x" ∧ a.handle = r.handle
    · rw [if_pos hcoll] at h
      exact absurd h (by simp)
    · rw [if_neg hcoll] at h
      have hmap := (Option.some.inj h).symm
      refine ⟨a, ?_, hat, hap, hah, hai⟩
      rw [hmap]
      refine List.mem_map.mpr ⟨a, ha, ?_⟩
      rw [if_neg ?_]
      intro hc
      exact hne (hc.1.symm.trans hat)
  · rw [if_neg hconf] at h
    by_cases hcoll : ∃ a ∈ reg, a.platform = "x" ∧ a.handle = r.handle
    · rw [if_pos hcoll] at h
      exact absurd h (by simp)
    · rw [if_neg hcoll] at h
      have hmap := (Option.some.inj h).symm
      refine ⟨a, ?_, hat, hap, hah, hai⟩
      rw [hmap]
      exact List.mem_append_left _ ha

/-- Upserting rows that all belong to other teams keeps an existing active
account. -/
theorem upsertAll_keeps (now : Nat) :
    ∀ (rows : List SeedRow) (reg reg2 : List AccountRow) (tid : Nat) (hd : String),
      (∀ r ∈ rows, r.team_id ≠ tid) → hasActiveAccount reg tid hd →
      upsertAll now rows reg = some reg2 → hasActiveAccount reg2 tid hd := by
  intro rows
  induction rows with
  | nil =>
      intro reg reg2 tid hd _ hacc h
      have hr : reg = reg2 := by simpa [upsertAll] using h
      rwa [← hr]
  | cons r rest ih =>
      intro reg reg2 tid hd hne hacc h
      rw [upsertAll] at h
      cases hu : upsertSeedAccount now reg r with
      | none =>
          rw [hu] at h
          simp at h
      | some reg1 =>
          rw [hu, Option.some_bind] at h
          refine ih reg1 reg2 tid hd (fun r2 hr2 => hne r2 (List.mem_cons_of_mem r hr2)) ?_ h
          exact upsertSeedAccount_keeps now reg reg1 r tid hd
            (hne r (List.mem_cons_self r rest)) hacc hu

/-- After upserting a list of seed rows with pairwise distinct team ids, every
row of the list has an active account in the result. -/
theorem upsertAll_puts (now : Nat) :
    ∀ (rows : List SeedRow) (reg reg2 : List AccountRow) (r : SeedRow),
      r ∈ rows → (rows.map SeedRow.team_id).Nodup →
      upsertAll now rows reg = some reg2 →
      hasActiveAccount reg2 r.team_id r.handle := by
  intro rows
  induction rows with
  | nil =>
      intro reg reg2 r hr
      exact absurd hr (by simp)
  | cons r0 rest ih =>
      intro reg reg2 r hr hnd h
      rw [List.map_cons, List.nodup_cons] at hnd
      rw [upsertAll] at h
      cases hu : upsertSeedAccount now reg r0 with
      | none =>
          rw [hu] at h
          simp at h
      | some reg1 =>
          rw [hu, Option.some_bind] at h
          rcases List.mem_cons.mp hr with hr0 | hrr
          · subst hr0
            have hput := upsertSeedAccount_puts now reg reg1 r hu
            have hne : ∀ r2 ∈ rest, r2.team_id ≠ r.team_id := by
              intro r2 hr2 hc
              exact hnd.1 (List.mem_map.mpr ⟨r2, hr2, hc⟩)
            exact upsertAll_keeps now rest reg1 reg2 r.team_id r.handle hne hput h
          · exact ih reg1 reg2 r hrr hnd.2 h

/-- C10: the seeding statement of sql/008 sets `is_active = TRUE` on every
seeded row unconditionally — after a successful run, every NBA or NHL team
with a non-null `x_handle` has an active `('x', handle)` registry entry, even
when the pre-existing entry for that `(team, platform)` had been deactivated:
reseeding reactivates deactivated accounts. -/
theorem seed_sets_active_unconditionally (now : Nat) (teams : List SportsTeamRow)
    (leagues : List SportsLeagueRow) (reg reg2 : List AccountRow)
    (t : SportsTeamRow) (l : SportsLeagueRow) (hd : String)
    (ht : t ∈ teams) (hx : t.x_handle = some hd)
    (hl : l ∈ leagues) (hlid : l.id = t.league_id)
    (hcode : l.code = "NBA" ∨ l.code = "NHL")
    (hseed : seedTeamSocialAccounts now teams leagues reg = some reg2) :
    hasActiveAccount reg2 t.id hd := by
  unfold seedTeamSocialAccounts at hseed
  by_cases hnd : ((seedSelectRows teams leagues).map SeedRow.team_id).Nodup
  · rw [if_pos hnd] at hseed
    have hmem : (⟨t.id, t.league_id, hd⟩ : SeedRow) ∈ seedSelectRows teams leagues := by
      unfold seedSelectRows
      refine List.mem_flatMap.mpr ⟨t, ht, ?_⟩
      refine List.mem_filterMap.mpr ⟨l, hl, ?_⟩
      simp only [hx]
      rw [if_pos ⟨hlid, hcode⟩]
    exact upsertAll_puts now (seedSelectRows teams leagues) reg reg2
      ⟨t.id, t.league_id, hd⟩ hmem hnd hseed
  · rw [if_neg hnd] at hseed
    exact absurd hseed (by simp)

/-- Witness for `seed_sets_active_unconditionally`: reseeding a team whose
registry entry had `is_active = FALSE` and an outdated handle reactivates it
with the current handle. -/
theorem seed_sets_active_unconditionally_witness :
    hasActiveAccount [⟨1, 10, "x", "Canes", true, 0, 5⟩] 1 "Canes" :=
  seed_sets_active_unconditionally 5 [⟨1, 10, some "Canes"⟩] [⟨10, "NHL"⟩]
    [⟨1, 10, "x", "OldHandle", false, 0, 0⟩] [⟨1, 10, "x", "Canes", true, 0, 5⟩]
    ⟨1, 10, some "Canes"⟩ ⟨10, "NHL"⟩ "Canes" (by decide) rfl (by decide) rfl
    (Or.inr rfl) (by decide)

end SportsDataAdmin
